import Mathlib

/-!
Verification of the "AI Coach" chat component (`src/unnamed/part_000`, the
feature-complete variant; `src/components/games/AiCoach.tsx` is the reduced
variant of the same component).  The component is embedded shallowly:

* text is `List Char` (`Str`), with JavaScript `trim` / regex behaviour
  reproduced by explicit character functions;
* the React component state is the record `CoachState`; the `useState`
  setters become functional updates;
* the streamed reply is a list of fragments, delivered in order to
  `applyChunk` (the body of the `for await` loop in `handleSendMessage`);
* calls out of the component (speech synthesis, the chat session) are
  recorded as `Action` values.
-/

namespace AiCoach

/-- Text is modelled as a list of characters. -/
abbrev Str := List Char

/-- The JavaScript whitespace class `\s` (also used by `String.prototype.trim`):
tab, LF, VT, FF, CR, space, NBSP, and the Unicode space separators. -/
def jsWhitespace (c : Char) : Bool :=
  c.val = 9 || c.val = 10 || c.val = 11 || c.val = 12 || c.val = 13 || c.val = 32 ||
  c.val = 0xa0 || c.val = 0x1680 || (0x2000 ≤ c.val && c.val ≤ 0x200a) ||
  c.val = 0x2028 || c.val = 0x2029 || c.val = 0x202f || c.val = 0x205f ||
  c.val = 0x3000 || c.val = 0xfeff

/-- Remove trailing JavaScript whitespace. -/
def rtrim (l : Str) : Str :=
  (l.reverse.dropWhile jsWhitespace).reverse

/-- JavaScript `String.prototype.trim`: strip leading and trailing whitespace. -/
def jsTrim (l : Str) : Str :=
  rtrim (l.dropWhile jsWhitespace)

/-- `hasPre pat l` holds when `pat` is a prefix of `l` (the test a regex engine
performs at one candidate start position for a literal pattern). -/
def hasPre : Str → Str → Bool
  | [], _ => true
  | _ :: _, [] => false
  | p :: ps, c :: cs => (p == c) && hasPre ps cs

/-- Index of the first occurrence of `pat` in `l` (JavaScript
`String.prototype.indexOf`, and the start position a leftmost regex match
of a pattern beginning with the literal `pat` would scan to). -/
def findSub (pat : Str) : Str → Option Nat
  | [] => if hasPre pat [] then some 0 else none
  | c :: rest =>
    if hasPre pat (c :: rest) then some 0
    else (findSub pat rest).map (· + 1)

/-- The narration marker `VOICE_OVER:` of the component's reply format. -/
def voMarker : Str := "VOICE_OVER:".data

/-- Capture group of `/VOICE_OVER:\s*(.*)/s` evaluated on `s`: at the first
occurrence of the marker, skip the maximal whitespace run (greedy `\s*`), and
capture everything to the end of the text (`(.*)` under the `s` flag). -/
def voCapture (s : Str) : Option Str :=
  match findSub voMarker s with
  | none => none
  | some i => some ((s.drop (i + voMarker.length)).dropWhile jsWhitespace)

/-- The narration text handed to the Narrator in the `finally` block of
`handleSendMessage`: the capture must be truthy (non-empty) and is trimmed. -/
def narration (s : Str) : Option Str :=
  match voCapture s with
  | none => none
  | some cap => if cap.isEmpty then none else some (jsTrim cap)

/-- `content.replace(/VOICE_OVER:\s*(.*)/s, '').trim()` from
`ModelMessageContent`: the match extends from the first marker occurrence to
the end of the text, so replacing it keeps only the part before the marker;
the result is then trimmed. -/
def displayText (s : Str) : Str :=
  match findSub voMarker s with
  | none => jsTrim s
  | some i => jsTrim (s.take i)

/-- Leftmost match of a regex of shape `label\s*(op.*?cl)` under the `s` flag
(used for `LaTeX Formula:\s*(\$\$.*?\$\$)` and
`MathML Formula:\s*(<math.*?<\/math>)`).  At each occurrence of `label`, the
greedy `\s*` must be followed immediately by `op` (any character it could give
back is whitespace, hence not the start of `op`), and the lazy `.*?` makes the
capture end at the first later occurrence of `cl`; if no `cl` follows, the
scan resumes at the next position.  Returns `(whole match, capture)`. -/
def matchSectionAux (label op cl : Str) : Str → Option (Str × Str)
  | [] => none
  | c :: rest =>
    if hasPre label (c :: rest) then
      let after := (c :: rest).drop label.length
      let body := after.dropWhile jsWhitespace
      if hasPre op body then
        match findSub cl (body.drop op.length) with
        | some m =>
          let capLen := op.length + m + cl.length
          some ((c :: rest).take (label.length + (after.takeWhile jsWhitespace).length + capLen),
                body.take capLen)
        | none => matchSectionAux label op cl rest
      else matchSectionAux label op cl rest
    else matchSectionAux label op cl rest

def latexLabel : Str := "LaTeX Formula:".data

def mathmlLabel : Str := "MathML Formula:".data

def descLabel : Str := "Plain Description:".data

def dollar2 : Str := "$$".data

def mathOpenTag : Str := "<math".data

def mathCloseTag : Str := "</math>".data

/-- `displayContent.match(/LaTeX Formula:\s*(\$\$.*?\$\$)/s)`. -/
def matchLatex (s : Str) : Option (Str × Str) :=
  matchSectionAux latexLabel dollar2 dollar2 s

/-- `displayContent.match(/MathML Formula:\s*(<math.*?<\/math>)/s)`. -/
def matchMathml (s : Str) : Option (Str × Str) :=
  matchSectionAux mathmlLabel mathOpenTag mathCloseTag s

/-- `displayContent.match(/Plain Description:\s*(.*)/s)`: always matches at the
first occurrence of the label; the whole match runs to the end of the text. -/
def matchDesc (s : Str) : Option (Str × Str) :=
  match findSub descLabel s with
  | none => none
  | some i => some (s.drop i, (s.drop (i + descLabel.length)).dropWhile jsWhitespace)

/-- `displayContent.indexOf(match[0])` for a possibly-absent match
(`match ? displayContent.indexOf(match[0]) : Infinity`, with `Infinity`
rendered as `none`). -/
def sectionIdx (d : Str) (m : Option (Str × Str)) : Option Nat :=
  m.bind (fun p => findSub p.1 d)

/-- `Math.min` over index-or-Infinity values (`none` = `Infinity`). -/
def minIdx : List (Option Nat) → Option Nat
  | [] => none
  | none :: rest => minIdx rest
  | some i :: rest =>
    match minIdx rest with
    | none => some i
    | some j => some (min i j)

/-- The structured pieces the `ModelMessageContent` renderer displays. -/
structure Rendered where
  explanation : Str
  latex : Option Str
  mathml : Option Str
  desc : Option Str
deriving DecidableEq

/-- The `ModelMessageContent` renderer: strip the voice-over part, match the
three labelled sections, and cut the explanation at the earliest section
start (`firstFormulaIndex`), trimming it; with no section present the
explanation is the whole display text. -/
def modelMessageContent (content : Str) : Rendered :=
  let d := displayText content
  let lm := matchLatex d
  let mm := matchMathml d
  let dm := matchDesc d
  let fI := minIdx [sectionIdx d lm, sectionIdx d mm, sectionIdx d dm]
  { explanation := match fI with
      | none => d
      | some i => jsTrim (d.take i)
    latex := lm.map (fun p => p.2)
    mathml := mm.map (fun p => p.2)
    desc := dm.map (fun p => p.2) }

/-- Message role, as in the `Message` interface. -/
inductive Role
  | user
  | model
deriving DecidableEq

/-- One transcript entry (`interface Message`). -/
structure Message where
  role : Role
  content : Str
deriving DecidableEq

/-- `type KeyStatus = 'checking' | 'needed' | 'ready' | 'error'`. -/
inductive KeyStatus
  | checking
  | needed
  | ready
  | error
deriving DecidableEq

/-- Opaque provider-side chat session handle (`Chat`); only its identity
matters to the component. -/
structure Session where
  id : Nat
deriving DecidableEq

/-- Calls the component makes to its external collaborators. -/
inductive Action
  | cancelSpeech
  | speakText (t : Str)
  | sendToSession (t : Str)
deriving DecidableEq

/-- The component's `useState`/`useRef` state, plus the two host-environment
capabilities it probes (`window.aistudio`, `window.speechSynthesis`). -/
structure CoachState where
  keyStatus : KeyStatus
  keyError : Option Str
  chat : Option Session
  messages : List Message
  inputValue : Str
  isStreaming : Bool
  isInitializing : Bool
  voiceOn : Bool
  acc : Str
  hasAistudio : Bool
  hasSpeech : Bool
deriving DecidableEq

/-- `speak(text)`: only with a speech engine and truthy (non-empty) text does
it cancel the previous utterance and speak the new one. -/
def speak (hasSpeech : Bool) (text : Str) : List Action :=
  if hasSpeech && !text.isEmpty then [Action.cancelSpeech, Action.speakText text]
  else []

/-- `toggleVoiceMode`: flip the flag; the captured (pre-toggle) value decides
whether `speechSynthesis.cancel()` is invoked. -/
def toggleVoiceMode (st : CoachState) : CoachState × List Action :=
  ({ st with voiceOn := !st.voiceOn },
   if st.voiceOn && st.hasSpeech then [Action.cancelSpeech] else [])

/-- The directive prepended to each outgoing message
(`isMadScientistVoiceOn ? "Mad Scientist Voice: ON" : "Mad Scientist Voice: OFF"`). -/
def voiceCommand (isOn : Bool) : Str :=
  if isOn then "Mad Scientist Voice: ON".data else "Mad Scientist Voice: OFF".data

/-- The entry guard of `handleSendMessage`:
`if (!inputValue.trim() || !chat || isStreaming) return;`. -/
def sendGuardFails (st : CoachState) : Bool :=
  (jsTrim st.inputValue).isEmpty || st.chat.isNone || st.isStreaming

/-- The `idle → sending` transition of `handleSendMessage` (after the guard):
append the user Turn verbatim plus an empty model placeholder, compose the
message actually sent (voice directive, blank line, raw input), clear the
input, raise the streaming flag, reset the accumulator.  Returns the new
state and the composed outgoing text. -/
def beginSend (st : CoachState) : CoachState × Str :=
  ({ st with
      messages := st.messages ++ [⟨Role.user, st.inputValue⟩, ⟨Role.model, []⟩],
      inputValue := [],
      isStreaming := true,
      acc := [] },
   voiceCommand st.voiceOn ++ "\n\n".data ++ st.inputValue)

/-- The body of the `for await (const chunk of stream)` loop: append the
fragment to the accumulator and, if the trailing Turn is a model Turn,
overwrite its content with the full accumulator value. -/
def applyChunk (st : CoachState) (c : Str) : CoachState :=
  let acc := st.acc ++ c
  let msgs :=
    match st.messages.getLast? with
    | some last =>
      if last.role = Role.model then st.messages.dropLast ++ [⟨Role.model, acc⟩]
      else st.messages
    | none => st.messages
  { st with acc := acc, messages := msgs }

/-- The fixed apology shown when the stream fails. -/
def oopsMsg : Str := "Oops! Something went wrong. Please try again.".data

/-- The `catch` block of `handleSendMessage`: set the accumulator and the
trailing Turn to the fixed apology (in JavaScript the index write
`newMessages[newMessages.length - 1]` is a no-op on an empty array). -/
def applyStreamError (st : CoachState) : CoachState :=
  { st with
      acc := oopsMsg,
      messages :=
        if st.messages.isEmpty then st.messages
        else st.messages.dropLast ++ [⟨Role.model, oopsMsg⟩] }

/-- The `finally` block of `handleSendMessage`: with voice mode on (the value
captured when the handler started), extract the narration from the
accumulated reply and, when truthy, speak its trimmed text. -/
def finallyActions (st : CoachState) : List Action :=
  if st.voiceOn then
    match narration st.acc with
    | some t => speak st.hasSpeech t
    | none => []
  else []

/-- Outcome of one streamed reply: the fragments delivered in order, and
whether the stream ended by completion or by failure after them (`err []`
is a failure while opening the stream). -/
inductive StreamOutcome
  | ok (chunks : List Str)
  | err (chunks : List Str)
deriving DecidableEq

/-- One complete run of `handleSendMessage` for a given stream outcome:
guard, `idle → sending` transition, fragment loop (and `catch` on failure),
then the `finally` block which lowers the streaming flag and possibly speaks.
The outgoing call to the Session and any speech calls are returned as
actions. -/
def handleSendMessage (st : CoachState) (outcome : StreamOutcome) :
    CoachState × List Action :=
  if sendGuardFails st then (st, [])
  else
    let st1 := (beginSend st).1
    let sent := (beginSend st).2
    let st2 :=
      match outcome with
      | StreamOutcome.ok chunks => chunks.foldl applyChunk st1
      | StreamOutcome.err chunks => applyStreamError (chunks.foldl applyChunk st1)
    ({ st2 with isStreaming := false },
     Action.sendToSession sent :: finallyActions st2)

/-- Diagnostic set by the key check on query failure. -/
def keyServiceErrMsg : Str :=
  "Could not connect to the API key service. Please reload.".data

/-- Outcome of `window.aistudio.hasSelectedApiKey()`. -/
inductive KeyQueryResult
  | yes
  | no
  | failed
deriving DecidableEq

/-- The startup key check (`checkKeyManagementService`): with no
key-management facility (`facility = none`) default to `ready`; otherwise
follow the query result, routing a query exception to `error` with a
diagnostic.  Returns the new key status and the diagnostic, if any. -/
def checkKeyManagementService (facility : Option KeyQueryResult) :
    KeyStatus × Option Str :=
  match facility with
  | none => (KeyStatus.ready, none)
  | some KeyQueryResult.yes => (KeyStatus.ready, none)
  | some KeyQueryResult.no => (KeyStatus.needed, none)
  | some KeyQueryResult.failed => (KeyStatus.error, some keyServiceErrMsg)

/-- The Turn seeded on successful session construction. -/
def welcomeMsg : Str :=
  "AI Coach initialized successfully. Ready to assist with Probability, Statistics, and Mathematical Analysis.".data

/-- `initializeChat` failure message for an invalid / under-privileged key. -/
def badKeyErrMsg : Str :=
  "The selected API key is not valid or lacks permissions. Please choose a different key.".data

/-- `initializeChat` failure message for any other error. -/
def unexpectedErrMsg : Str :=
  "An unexpected error occurred during initialization. Please try selecting your key again.".data

/-- Turn appended when initialization fails without a key-management host. -/
def unavailableMsg : Str :=
  "Sorry, the AI Coach couldn't be started. This might be because an API key isn't configured for this environment.".data

/-- `handleSelectKey` failure message. -/
def selectKeyErrMsg : Str :=
  "The API key selection dialog could not be opened.".data

/-- Outcome of constructing a session in `initializeChat`; on failure,
`badKey` records whether the thrown message matched the invalid-key
patterns. -/
inductive InitOutcome
  | success (s : Session)
  | failure (badKey : Bool)
deriving DecidableEq

/-- The externally visible events that drive the component, each carrying the
outcome of the external call it performs. -/
inductive Event
  | checkKey (r : Option KeyQueryResult)
  | initChat (o : InitOutcome)
  | selectKey (ok : Bool)
  | send (o : StreamOutcome)
  | toggleVoice
  | typeInput (s : Str)
deriving DecidableEq

/-- The component's state at mount. -/
def initialState (hasAistudio hasSpeech : Bool) : CoachState :=
  { keyStatus := KeyStatus.checking
    keyError := none
    chat := none
    messages := []
    inputValue := []
    isStreaming := false
    isInitializing := false
    voiceOn := false
    acc := []
    hasAistudio := hasAistudio
    hasSpeech := hasSpeech }

/-- One event step of the component.  Guards reflect when each handler can
run: the startup check fires once from the `checking` state; the
`initializeChat` effect fires only when `keyStatus === 'ready' && !chat &&
!isInitializing`; `handleSelectKey` is reachable only through the
`renderActionRequired` view, which is rendered only in the `needed` state. -/
def applyEvent (st : CoachState) : Event → CoachState
  | Event.checkKey r =>
    if st.keyStatus = KeyStatus.checking then
      match checkKeyManagementService r with
      | (ks, some e) => { st with keyStatus := ks, keyError := some e }
      | (ks, none) => { st with keyStatus := ks }
    else st
  | Event.initChat o =>
    if st.keyStatus = KeyStatus.ready ∧ st.chat = none ∧ st.isInitializing = false then
      match o with
      | InitOutcome.success s =>
        { st with chat := some s, keyError := none,
                  messages := [⟨Role.model, welcomeMsg⟩], isInitializing := false }
      | InitOutcome.failure badKey =>
        if st.hasAistudio then
          { st with chat := none, keyStatus := KeyStatus.needed,
                    keyError := some (if badKey then badKeyErrMsg else unexpectedErrMsg),
                    isInitializing := false }
        else
          { st with chat := none, keyError := none,
                    messages := [⟨Role.model, unavailableMsg⟩], isInitializing := false }
    else st
  | Event.selectKey ok =>
    if st.keyStatus = KeyStatus.needed then
      if ok then { st with keyStatus := KeyStatus.ready }
      else { st with keyError := some selectKeyErrMsg, keyStatus := KeyStatus.needed }
    else st
  | Event.send o => (handleSendMessage st o).1
  | Event.toggleVoice => (toggleVoiceMode st).1
  | Event.typeInput s => { st with inputValue := s }

/-- States the component can actually be in: the mount state closed under
event steps. -/
inductive Reachable (ha hs : Bool) : CoachState → Prop
  | init : Reachable ha hs (initialState ha hs)
  | step (st : CoachState) (e : Event) :
      Reachable ha hs st → Reachable ha hs (applyEvent st e)


/-! ### Basic facts about the fragment loop -/

lemma applyChunk_spec (st : CoachState) (c : Str)
    (h : st.messages.getLast? = some ⟨Role.model, st.acc⟩) :
    (applyChunk st c).acc = st.acc ++ c ∧
    (applyChunk st c).messages.getLast? = some ⟨Role.model, st.acc ++ c⟩ ∧
    (applyChunk st c).messages.dropLast = st.messages.dropLast := by
  refine ⟨rfl, ?_, ?_⟩
  · unfold applyChunk
    simp only [h]
    simp
  · unfold applyChunk
    simp only [h]
    simp

lemma foldl_applyChunk_spec (cs : List Str) (st : CoachState)
    (h : st.messages.getLast? = some ⟨Role.model, st.acc⟩) :
    (cs.foldl applyChunk st).acc = st.acc ++ cs.flatten ∧
    (cs.foldl applyChunk st).messages.getLast? = some ⟨Role.model, st.acc ++ cs.flatten⟩ ∧
    (cs.foldl applyChunk st).messages.dropLast = st.messages.dropLast := by
  induction cs generalizing st with
  | nil => exact ⟨by simp, by simpa using h, rfl⟩
  | cons c cs ih =>
    obtain ⟨h1, h2, h3⟩ := applyChunk_spec st c h
    have hrec := ih (applyChunk st c) (by rw [h2, h1])
    refine ⟨?_, ?_, ?_⟩
    · rw [List.foldl_cons, hrec.1, h1, List.flatten_cons, List.append_assoc]
    · rw [List.foldl_cons, hrec.2.1, h1, List.flatten_cons, List.append_assoc]
    · rw [List.foldl_cons, hrec.2.2, h3]

lemma beginSend_getLast (st : CoachState) :
    (beginSend st).1.messages.getLast? = some ⟨Role.model, (beginSend st).1.acc⟩ := by
  show (st.messages ++ [Message.mk Role.user st.inputValue, Message.mk Role.model []]).getLast?
      = some (Message.mk Role.model [])
  rw [show st.messages ++ [Message.mk Role.user st.inputValue, Message.mk Role.model []]
      = (st.messages ++ [Message.mk Role.user st.inputValue]) ++ [Message.mk Role.model []] by simp]
  exact List.getLast?_concat _

lemma beginSend_dropLast (st : CoachState) :
    (beginSend st).1.messages.dropLast = st.messages ++ [Message.mk Role.user st.inputValue] := by
  show (st.messages ++ [Message.mk Role.user st.inputValue, Message.mk Role.model []]).dropLast
      = st.messages ++ [Message.mk Role.user st.inputValue]
  rw [show st.messages ++ [Message.mk Role.user st.inputValue, Message.mk Role.model []]
      = (st.messages ++ [Message.mk Role.user st.inputValue]) ++ [Message.mk Role.model []] by simp]
  exact List.dropLast_concat ..

/-! ### Claim C1: streamed fragments accumulate into the trailing model Turn -/

/-- C1: for every prior state and every finite sequence of streamed fragments,
after the `i`-th delivery is applied (starting from the state produced by the
`idle → sending` transition) the trailing model Turn's content equals the
concatenation of the first `i` fragments — the displayed text is always the
complete-so-far reply, never a delta. -/
theorem c1_stream_accumulation (st : CoachState) (fs : List Str) (i : Nat) :
    ((fs.take i).foldl applyChunk (beginSend st).1).messages.getLast?
      = some ⟨Role.model, (fs.take i).flatten⟩ := by
  have h := (foldl_applyChunk_spec (fs.take i) (beginSend st).1 (beginSend_getLast st)).2.1
  simpa using h

/-! ### Claim C2: the entry guard is a silent no-op -/

/-- C2: a submission whose input is empty or whitespace-only, or made while no
live Session exists, or made while `isStreaming` is true, leaves the whole
state (in particular the transcript) unchanged and performs no action. -/
theorem c2_guard_silent_noop (st : CoachState) (o : StreamOutcome)
    (h : jsTrim st.inputValue = [] ∨ st.chat = none ∨ st.isStreaming = true) :
    handleSendMessage st o = (st, []) := by
  have hg : sendGuardFails st = true := by
    unfold sendGuardFails
    rcases h with h | h | h <;> simp [h]
  unfold handleSendMessage
  rw [hg]
  simp

/-- A state in which the guard passes: a live session, idle, non-blank input. -/
def sampleIdle : CoachState :=
  { keyStatus := KeyStatus.ready, keyError := none, chat := some ⟨0⟩
    messages := [⟨Role.model, welcomeMsg⟩]
    inputValue := "hi".data, isStreaming := false, isInitializing := false
    voiceOn := false, acc := [], hasAistudio := false, hasSpeech := true }

theorem c2_guard_silent_noop_witness :
    jsTrim "  ".data = [] ∧
    handleSendMessage { sampleIdle with inputValue := "  ".data }
      (StreamOutcome.ok ["x".data]) = ({ sampleIdle with inputValue := "  ".data }, []) :=
  ⟨by decide, c2_guard_silent_noop { sampleIdle with inputValue := "  ".data }
    (StreamOutcome.ok ["x".data]) (Or.inl (by decide))⟩

/-! ### Claim C4: stream failure yields exactly the apology and returns to idle -/

lemma foldl_messages_ne_nil (st : CoachState) (cs : List Str) :
    ((cs.foldl applyChunk (beginSend st).1).messages.isEmpty) = false := by
  have hspec := foldl_applyChunk_spec cs (beginSend st).1 (beginSend_getLast st)
  rcases hn : (cs.foldl applyChunk (beginSend st).1).messages with _ | ⟨a, l⟩
  · rw [hn] at hspec
    exact absurd hspec.2.1 (by simp)
  · rfl

/-- C4: whenever the guard passes and the stream fails — after any number of
fragments, including zero — the trailing model Turn's content becomes exactly
the fixed apology string, no partial streamed content survives (the
accumulator also holds exactly the apology), and `isStreaming` returns to
`false`. -/
theorem c4_stream_failure_apology (st : CoachState) (cs : List Str)
    (h : sendGuardFails st = false) :
    (handleSendMessage st (StreamOutcome.err cs)).1.messages.getLast?
        = some ⟨Role.model, oopsMsg⟩ ∧
    (handleSendMessage st (StreamOutcome.err cs)).1.acc = oopsMsg ∧
    (handleSendMessage st (StreamOutcome.err cs)).1.isStreaming = false := by
  refine ⟨?_, ?_, ?_⟩
  · unfold handleSendMessage
    rw [h]
    simp only [Bool.false_eq_true, if_false]
    show (applyStreamError (cs.foldl applyChunk (beginSend st).1)).messages.getLast?
        = some ⟨Role.model, oopsMsg⟩
    unfold applyStreamError
    simp only [foldl_messages_ne_nil st cs, Bool.false_eq_true, if_false]
    exact List.getLast?_concat _
  · unfold handleSendMessage
    rw [h]
    simp [applyStreamError]
  · unfold handleSendMessage
    rw [h]
    simp

theorem c4_stream_failure_apology_witness :
    (handleSendMessage sampleIdle (StreamOutcome.err ["partial ".data])).1.messages.getLast?
        = some ⟨Role.model, oopsMsg⟩ ∧
    (handleSendMessage sampleIdle (StreamOutcome.err ["partial ".data])).1.isStreaming = false :=
  ⟨(c4_stream_failure_apology sampleIdle ["partial ".data] (by decide)).1,
   (c4_stream_failure_apology sampleIdle ["partial ".data] (by decide)).2.2⟩

/-! ### Claim C6: raw text in the transcript, directive only on the wire -/

/-- The composed outgoing text of one submission: the fixed voice-mode
directive line, a blank line, then the raw input
(`` `${voiceCommand}\n\n${inputValue}` ``). -/
def sentText (st : CoachState) : Str :=
  voiceCommand st.voiceOn ++ "\n\n".data ++ st.inputValue

/-- C6: for every submission that passes the guard, the user Turn appended to
the transcript is the raw input text verbatim (followed by the empty model
placeholder), while the text actually sent to the Session is the fixed
voice-mode directive line, a blank line, and that input; the sent text (which
carries the directive) is never what gets recorded — after the whole send the
transcript up to the trailing model Turn is the old transcript plus the raw
user Turn, and the sent text differs from the raw input. -/
theorem c6_directive_only_sent (st : CoachState) (o : StreamOutcome)
    (h : sendGuardFails st = false) :
    (beginSend st).1.messages
        = st.messages ++ [⟨Role.user, st.inputValue⟩, ⟨Role.model, []⟩] ∧
    (beginSend st).2 = sentText st ∧
    (handleSendMessage st o).2.head? = some (Action.sendToSession (sentText st)) ∧
    (handleSendMessage st o).1.messages.dropLast
        = st.messages ++ [⟨Role.user, st.inputValue⟩] ∧
    sentText st ≠ st.inputValue := by
  refine ⟨?_, ?_, ?_, ?_, ?_⟩
  · exact rfl
  · exact rfl
  · unfold handleSendMessage
    rw [h]
    simp only [Bool.false_eq_true, if_false, List.head?]
    exact rfl
  · unfold handleSendMessage
    rw [h]
    simp only [Bool.false_eq_true, if_false]
    cases o with
    | ok chunks =>
      show (chunks.foldl applyChunk (beginSend st).1).messages.dropLast = _
      rw [(foldl_applyChunk_spec chunks (beginSend st).1 (beginSend_getLast st)).2.2,
          beginSend_dropLast]
    | err chunks =>
      show (applyStreamError (chunks.foldl applyChunk (beginSend st).1)).messages.dropLast = _
      unfold applyStreamError
      simp only [foldl_messages_ne_nil st chunks, Bool.false_eq_true, if_false]
      rw [List.dropLast_concat,
          (foldl_applyChunk_spec chunks (beginSend st).1 (beginSend_getLast st)).2.2,
          beginSend_dropLast]
  · intro heq
    have hlen := congrArg List.length heq
    have hcmd : 0 < (voiceCommand st.voiceOn).length := by
      cases hv : st.voiceOn <;> simp [voiceCommand]
    have h2 : ("\n\n".data : Str).length = 2 := rfl
    simp only [sentText, List.length_append, h2] at hlen
    omega

theorem c6_directive_only_sent_witness :
    (beginSend sampleIdle).2 = "Mad Scientist Voice: OFF\n\nhi".data ∧
    (handleSendMessage sampleIdle (StreamOutcome.ok [])).2.head?
      = some (Action.sendToSession (sentText sampleIdle)) :=
  ⟨by decide, (c6_directive_only_sent sampleIdle (StreamOutcome.ok []) (by decide)).2.2.1⟩

/-! ### Claim C7: the key check defaults open without a facility, fails closed on errors -/

/-- C7: the startup key check sets Key State to `ready` when the host exposes
no key-management facility; with a facility it sets `ready` on a positive
query and `needed` on a negative one; and a query exception routes to `error`
with a diagnostic message — never to `ready`. -/
theorem c7_key_check_fails_closed :
    checkKeyManagementService none = (KeyStatus.ready, none) ∧
    checkKeyManagementService (some KeyQueryResult.yes) = (KeyStatus.ready, none) ∧
    checkKeyManagementService (some KeyQueryResult.no) = (KeyStatus.needed, none) ∧
    (checkKeyManagementService (some KeyQueryResult.failed)).1 = KeyStatus.error ∧
    (checkKeyManagementService (some KeyQueryResult.failed)).2 = some keyServiceErrMsg ∧
    (checkKeyManagementService (some KeyQueryResult.failed)).1 ≠ KeyStatus.ready := by
  refine ⟨rfl, rfl, rfl, rfl, rfl, ?_⟩
  decide

/-! ### Claim C8: a live Session exists only in the `ready` key state -/

lemma handleSend_preserves_chat_key (st : CoachState) (o : StreamOutcome) :
    (handleSendMessage st o).1.chat = st.chat ∧
    (handleSendMessage st o).1.keyStatus = st.keyStatus := by
  have hfold : ∀ (cs : List Str) (s : CoachState),
      (cs.foldl applyChunk s).chat = s.chat ∧
      (cs.foldl applyChunk s).keyStatus = s.keyStatus := by
    intro cs
    induction cs with
    | nil => intro s; exact ⟨rfl, rfl⟩
    | cons c cs ih =>
      intro s
      rw [List.foldl_cons]
      exact ⟨(ih (applyChunk s c)).1.trans rfl, (ih (applyChunk s c)).2.trans rfl⟩
  unfold handleSendMessage
  by_cases hg : sendGuardFails st
  · rw [if_pos hg]
    exact ⟨rfl, rfl⟩
  · rw [if_neg hg]
    cases o with
    | ok chunks =>
      exact ⟨(hfold chunks (beginSend st).1).1, (hfold chunks (beginSend st).1).2⟩
    | err chunks =>
      exact ⟨(hfold chunks (beginSend st).1).1, (hfold chunks (beginSend st).1).2⟩

lemma applyEvent_checkKey_chat (st : CoachState) (r : Option KeyQueryResult) :
    (applyEvent st (Event.checkKey r)).chat = st.chat := by
  simp only [applyEvent]
  split
  · split <;> rfl
  · rfl

lemma applyEvent_selectKey_chat (st : CoachState) (ok : Bool) :
    (applyEvent st (Event.selectKey ok)).chat = st.chat := by
  simp only [applyEvent]
  split
  · split <;> rfl
  · rfl

/-- The invariant of claim C8: a non-null `chat` implies `keyStatus = ready`. -/
def sessionInv (st : CoachState) : Prop :=
  st.chat.isSome = true → st.keyStatus = KeyStatus.ready

lemma applyEvent_preserves_sessionInv (st : CoachState) (e : Event)
    (h : sessionInv st) : sessionInv (applyEvent st e) := by
  cases e with
  | checkKey r =>
    intro hsome
    rw [applyEvent_checkKey_chat] at hsome
    by_cases hks : st.keyStatus = KeyStatus.checking
    · have hready := h hsome
      rw [hks] at hready
      exact absurd hready (by decide)
    · simp only [applyEvent, if_neg hks]
      exact h hsome
  | initChat o =>
    intro hsome
    simp only [applyEvent] at hsome ⊢
    by_cases hg : st.keyStatus = KeyStatus.ready ∧ st.chat = none ∧ st.isInitializing = false
    · rw [if_pos hg] at hsome ⊢
      cases o with
      | success s => exact hg.1
      | failure badKey =>
        exfalso
        cases ha : st.hasAistudio
        · rw [ha] at hsome
          simp at hsome
        · rw [ha] at hsome
          simp at hsome
    · rw [if_neg hg] at hsome ⊢
      exact h hsome
  | selectKey ok =>
    intro hsome
    rw [applyEvent_selectKey_chat] at hsome
    by_cases hks : st.keyStatus = KeyStatus.needed
    · have hready := h hsome
      rw [hks] at hready
      exact absurd hready (by decide)
    · simp only [applyEvent, if_neg hks]
      exact h hsome
  | send o =>
    intro hsome
    show (handleSendMessage st o).1.keyStatus = KeyStatus.ready
    rw [(handleSend_preserves_chat_key st o).2]
    apply h
    rw [← (handleSend_preserves_chat_key st o).1]
    exact hsome
  | toggleVoice => intro hsome; exact h hsome
  | typeInput s => intro hsome; exact h hsome

/-- C8: in every reachable state of the component, a live Session (non-null
`chat`) exists only when Key State has reached `ready`; every event —
including session-initialization failure and key re-selection — preserves the
invariant. -/
theorem c8_session_only_when_ready (ha hs : Bool) (st : CoachState)
    (h : Reachable ha hs st) : st.chat.isSome = true → st.keyStatus = KeyStatus.ready := by
  induction h with
  | init => intro hsome; exact Bool.noConfusion hsome
  | step st e _ ih => exact applyEvent_preserves_sessionInv st e ih

theorem c8_session_only_when_ready_witness :
    (applyEvent (applyEvent (initialState false true) (Event.checkKey none))
        (Event.initChat (InitOutcome.success ⟨0⟩))).chat.isSome = true ∧
    (applyEvent (applyEvent (initialState false true) (Event.checkKey none))
        (Event.initChat (InitOutcome.success ⟨0⟩))).keyStatus = KeyStatus.ready :=
  ⟨by decide,
   c8_session_only_when_ready false true _
     (Reachable.step _ (Event.initChat (InitOutcome.success ⟨0⟩))
       (Reachable.step _ (Event.checkKey none) Reachable.init))
     (by decide)⟩

/-! ### Claim C9: toggling voice mode off cancels in-progress speech -/

/-- C9: from every state in which voice mode is on (and the speech engine is
present), the voice-mode-toggle step invokes the engine's `cancel` — so speech
in progress never continues after voice mode is toggled off — and the flag
goes off. -/
theorem c9_toggle_off_cancels (st : CoachState)
    (hv : st.voiceOn = true) (hs : st.hasSpeech = true) :
    (toggleVoiceMode st).2 = [Action.cancelSpeech] ∧
    (toggleVoiceMode st).1.voiceOn = false := by
  unfold toggleVoiceMode
  rw [hv, hs]
  exact ⟨rfl, by simp⟩

theorem c9_toggle_off_cancels_witness :
    (toggleVoiceMode { sampleIdle with voiceOn := true }).2 = [Action.cancelSpeech] :=
  (c9_toggle_off_cancels { sampleIdle with voiceOn := true } rfl rfl).1

/-! ### Substring-search lemmas -/

lemma hasPre_append_right (p l r : Str) (h : hasPre p l = true) :
    hasPre p (l ++ r) = true := by
  induction p generalizing l with
  | nil => rfl
  | cons q qs ih =>
    cases l with
    | nil => exact absurd h (by simp [hasPre])
    | cons c cs =>
      simp only [hasPre, Bool.and_eq_true] at h ⊢
      exact ⟨h.1, ih cs h.2⟩

lemma hasPre_self_append (p r : Str) : hasPre p (p ++ r) = true := by
  induction p with
  | nil => rfl
  | cons q qs ih => simp [hasPre, ih]

lemma hasPre_of_append_left (p l m : Str) (hlen : p.length ≤ l.length)
    (h : hasPre p (l ++ m) = true) : hasPre p l = true := by
  induction p generalizing l with
  | nil => rfl
  | cons q qs ih =>
    cases l with
    | nil => simp at hlen
    | cons c cs =>
      simp only [hasPre, Bool.and_eq_true] at h ⊢
      simp only [List.length_cons, Nat.add_le_add_iff_right] at hlen
      exact ⟨h.1, ih cs hlen h.2⟩

lemma mem_of_hasPre_over (p l : Str) (c : Char) (t : Str)
    (hlen : l.length < p.length) (h : hasPre p (l ++ c :: t) = true) : c ∈ p := by
  induction p generalizing l with
  | nil => simp at hlen
  | cons q qs ih =>
    cases l with
    | nil =>
      simp only [List.nil_append, hasPre, Bool.and_eq_true, beq_iff_eq] at h
      rw [← h.1]
      exact List.mem_cons_self q qs
    | cons a l' =>
      simp only [hasPre, Bool.and_eq_true] at h
      simp only [List.length_cons, Nat.add_lt_add_iff_right] at hlen
      exact List.mem_cons_of_mem q (ih l' hlen h.2)

lemma findSub_none_hasPre (pat l : Str) (h : findSub pat l = none) :
    ∀ j, hasPre pat (l.drop j) = false := by
  induction l with
  | nil =>
    intro j
    unfold findSub at h
    cases hc : hasPre pat [] with
    | false => simpa using hc
    | true => rw [hc] at h; simp at h
  | cons c rest ih =>
    intro j
    unfold findSub at h
    cases hc : hasPre pat (c :: rest) with
    | true => rw [hc] at h; simp at h
    | false =>
      rw [hc] at h
      simp only [if_false, Bool.false_eq_true] at h
      have hr : findSub pat rest = none := by
        cases hfr : findSub pat rest with
        | none => rfl
        | some m => rw [hfr] at h; simp at h
      cases j with
      | zero => exact hc
      | succ j => exact ih hr j

lemma findSub_some_hasPre (pat l : Str) (i : Nat) (h : findSub pat l = some i) :
    hasPre pat (l.drop i) = true ∧ ∀ j, j < i → hasPre pat (l.drop j) = false := by
  induction l generalizing i with
  | nil =>
    unfold findSub at h
    cases hc : hasPre pat [] with
    | true =>
      rw [hc] at h
      simp only [if_true, Option.some.injEq] at h
      subst h
      exact ⟨by simpa using hc, fun j hj => absurd hj (by omega)⟩
    | false => rw [hc] at h; simp at h
  | cons c rest ih =>
    unfold findSub at h
    cases hc : hasPre pat (c :: rest) with
    | true =>
      rw [hc] at h
      simp only [if_true, Option.some.injEq] at h
      subst h
      exact ⟨hc, fun j hj => absurd hj (by omega)⟩
    | false =>
      rw [hc] at h
      simp only [if_false, Bool.false_eq_true] at h
      rcases Option.map_eq_some'.mp h with ⟨i', hi', hplus⟩
      obtain ⟨h1, h2⟩ := ih i' hi'
      subst hplus
      refine ⟨h1, ?_⟩
      intro j hj
      cases j with
      | zero => exact hc
      | succ j => exact h2 j (by omega)

lemma findSub_none_of_all (pat l : Str) (h : ∀ j, hasPre pat (l.drop j) = false) :
    findSub pat l = none := by
  induction l with
  | nil =>
    unfold findSub
    rw [show hasPre pat [] = false from h 0]
    simp
  | cons c rest ih =>
    unfold findSub
    rw [show hasPre pat (c :: rest) = false from h 0]
    simp only [if_false, Bool.false_eq_true]
    rw [ih (fun j => h (j + 1))]
    rfl

lemma hasPre_nil_false (pat : Str) (hpat : pat ≠ []) : hasPre pat [] = false := by
  cases pat with
  | nil => exact absurd rfl hpat
  | cons q qs => rfl

lemma findSub_take_none (pat l : Str) (i : Nat) (hpat : pat ≠ [])
    (hfind : findSub pat l = some i) : findSub pat (l.take i) = none := by
  apply findSub_none_of_all
  intro j
  cases hc : hasPre pat ((l.take i).drop j) with
  | false => rfl
  | true =>
    exfalso
    by_cases hj : j < i
    · have hdec : ((l.take i).drop j) ++ (l.drop i) = l.drop j := by
        rw [List.drop_take]
        have h1 : l.drop i = (l.drop j).drop (i - j) := by
          rw [List.drop_drop]
          congr 1
          omega
        rw [h1]
        exact List.take_append_drop _ _
      have hall : hasPre pat (l.drop j) = true := by
        rw [← hdec]
        exact hasPre_append_right _ _ _ hc
      exact absurd hall (by rw [(findSub_some_hasPre pat l i hfind).2 j hj]; simp)
    · have hnil : (l.take i).drop j = [] := by
        apply List.drop_eq_nil_of_le
        calc (l.take i).length ≤ i := by rw [List.length_take]; omega
          _ ≤ j := by omega
      rw [hnil] at hc
      rw [hasPre_nil_false pat hpat] at hc
      exact Bool.noConfusion hc

lemma findSub_infix_none (pat a m b : Str) (hpat : pat ≠ [])
    (h : findSub pat (a ++ m ++ b) = none) : findSub pat m = none := by
  rw [List.append_assoc] at h
  apply findSub_none_of_all
  intro j
  cases hc : hasPre pat (m.drop j) with
  | false => rfl
  | true =>
    exfalso
    by_cases hj : j ≤ m.length
    · have h1 : hasPre pat ((m ++ b).drop j) = true := by
        rw [List.drop_append_of_le_length hj]
        exact hasPre_append_right _ _ _ hc
      have h2 : (a ++ (m ++ b)).drop (a.length + j) = (m ++ b).drop j := by
        rw [List.drop_append_eq_append_drop]
        rw [List.drop_eq_nil_of_le (show a.length ≤ a.length + j by omega)]
        simp only [List.nil_append]
        congr 1
        omega
      have h3 := findSub_none_hasPre pat (a ++ (m ++ b)) h (a.length + j)
      rw [h2, h1] at h3
      exact Bool.noConfusion h3
    · have hnil : m.drop j = [] := List.drop_eq_nil_of_le (by omega)
      rw [hnil, hasPre_nil_false pat hpat] at hc
      exact Bool.noConfusion hc

/-! ### Trim lemmas -/

lemma dropWhile_head_not (p : Char → Bool) (l : Str) (c : Char) (cs : Str)
    (h : l.dropWhile p = c :: cs) : p c = false := by
  induction l with
  | nil => simp [List.dropWhile] at h
  | cons a l' ih =>
    rw [List.dropWhile] at h
    cases hp : p a with
    | true => rw [hp] at h; exact ih h
    | false =>
      rw [hp] at h
      simp only [List.cons.injEq] at h
      rw [← h.1]
      exact hp

lemma dropWhile_idem (p : Char → Bool) (l : Str) :
    (l.dropWhile p).dropWhile p = l.dropWhile p := by
  cases h : l.dropWhile p with
  | nil => rfl
  | cons c cs =>
    rw [List.dropWhile, dropWhile_head_not p l c cs h]

lemma exists_append_dropWhile (p : Char → Bool) (l : Str) :
    ∃ t, l = t ++ l.dropWhile p := by
  induction l with
  | nil => exact ⟨[], rfl⟩
  | cons c cs ih =>
    rw [List.dropWhile]
    cases hp : p c with
    | true =>
      obtain ⟨t, ht⟩ := ih
      exact ⟨c :: t, by rw [List.cons_append, ← ht]⟩
    | false => exact ⟨[], rfl⟩

lemma rtrim_append_ws (l : Str) (c : Char) (h : jsWhitespace c = true) :
    rtrim (l ++ [c]) = rtrim l := by
  unfold rtrim
  rw [List.reverse_append]
  simp [List.dropWhile, h]

lemma rtrim_eq_nil_iff (l : Str) :
    rtrim l = [] ↔ ∀ c ∈ l, jsWhitespace c = true := by
  unfold rtrim
  rw [List.reverse_eq_nil_iff, List.dropWhile_eq_nil_iff]
  constructor
  · intro h c hc
    exact h c (List.mem_reverse.mpr hc)
  · intro h c hc
    exact h c (List.mem_reverse.mp hc)

lemma rtrim_idem (l : Str) : rtrim (rtrim l) = rtrim l := by
  unfold rtrim
  rw [List.reverse_reverse, dropWhile_idem]

lemma exists_rtrim_append (l : Str) : ∃ u, l = rtrim l ++ u := by
  obtain ⟨t, ht⟩ := exists_append_dropWhile jsWhitespace l.reverse
  refine ⟨t.reverse, ?_⟩
  unfold rtrim
  calc l = l.reverse.reverse := (List.reverse_reverse l).symm
    _ = (t ++ l.reverse.dropWhile jsWhitespace).reverse := by rw [← ht]
    _ = (l.reverse.dropWhile jsWhitespace).reverse ++ t.reverse := List.reverse_append _ _

lemma jsTrim_dropWhile (l : Str) :
    jsTrim (l.dropWhile jsWhitespace) = jsTrim l := by
  unfold jsTrim
  rw [dropWhile_idem]

lemma jsTrim_append_ws (l : Str) (c : Char) (h : jsWhitespace c = true) :
    jsTrim (l ++ [c]) = jsTrim l := by
  unfold jsTrim
  rw [List.dropWhile_append]
  by_cases hl : (l.dropWhile jsWhitespace).isEmpty
  · rw [if_pos hl]
    have hnil : l.dropWhile jsWhitespace = [] := by simpa [List.isEmpty_iff] using hl
    rw [hnil]
    simp [List.dropWhile, h, rtrim]
  · rw [if_neg hl]
    exact rtrim_append_ws _ c h

lemma jsTrim_ne_nil_of_head_not_ws (c : Char) (cs : Str) (h : jsWhitespace c = false) :
    jsTrim (c :: cs) ≠ [] := by
  unfold jsTrim
  rw [List.dropWhile, h]
  simp only [Bool.false_eq_true, if_false]
  intro hnil
  have hall := (rtrim_eq_nil_iff (c :: cs)).mp hnil
  have := hall c (List.mem_cons_self c cs)
  rw [h] at this
  exact Bool.noConfusion this

lemma jsTrim_idem (l : Str) : jsTrim (jsTrim l) = jsTrim l := by
  cases hd : l.dropWhile jsWhitespace with
  | nil =>
    have h1 : jsTrim l = [] := by unfold jsTrim; rw [hd]; rfl
    rw [h1]
    rfl
  | cons c cs =>
    have hc : jsWhitespace c = false := dropWhile_head_not jsWhitespace l c cs hd
    have h1 : jsTrim l = rtrim (c :: cs) := by unfold jsTrim; rw [hd]
    rw [h1]
    cases hr : rtrim (c :: cs) with
    | nil => rfl
    | cons d ds =>
      have hdc : d = c := by
        obtain ⟨u, hu⟩ := exists_rtrim_append (c :: cs)
        rw [hr] at hu
        simp only [List.cons_append, List.cons.injEq] at hu
        exact hu.1.symm
      subst hdc
      unfold jsTrim
      simp only [List.dropWhile, hc]
      rw [← hr, rtrim_idem]

lemma exists_jsTrim_infix (l : Str) : ∃ a b, l = a ++ jsTrim l ++ b := by
  obtain ⟨t, ht⟩ := exists_append_dropWhile jsWhitespace l
  obtain ⟨u, hu⟩ := exists_rtrim_append (l.dropWhile jsWhitespace)
  refine ⟨t, u, ?_⟩
  unfold jsTrim
  rw [List.append_assoc, ← hu, ← ht]

/-! ### Claim C3: narration extraction round-trip -/

lemma findSub_cons_of_not (pat : Str) (c : Char) (rest : Str)
    (h : hasPre pat (c :: rest) = false) :
    findSub pat (c :: rest) = (findSub pat rest).map (· + 1) := by
  show (if hasPre pat (c :: rest) then some 0 else (findSub pat rest).map (· + 1)) = _
  rw [h]
  simp

lemma findSub_cons_none (pat : Str) (a : Char) (x : Str)
    (h : findSub pat (a :: x) = none) :
    hasPre pat (a :: x) = false ∧ findSub pat x = none := by
  unfold findSub at h
  cases hc : hasPre pat (a :: x) with
  | true => rw [hc] at h; simp at h
  | false =>
    rw [hc] at h
    simp only [if_false, Bool.false_eq_true] at h
    exact ⟨rfl, Option.map_eq_none'.mp h⟩

lemma findSub_append_newline (pat x t : Str) (hnl : ('\n' ∈ pat) → False)
    (hx : findSub pat x = none) :
    findSub pat (x ++ '\n' :: t) = (findSub pat t).map (fun m => x.length + 1 + m) := by
  induction x with
  | nil =>
    cases pat with
    | nil => exact absurd hx (by simp [findSub, hasPre])
    | cons q qs =>
      have hq : (q == '\n') = false := by
        cases hbe : q == '\n' with
        | false => rfl
        | true =>
          exfalso
          apply hnl
          rw [beq_iff_eq] at hbe
          rw [← hbe]
          exact List.mem_cons_self q qs
      have hfp : hasPre (q :: qs) ('\n' :: t) = false := by
        show ((q == '\n') && hasPre qs t) = false
        rw [hq]
        rfl
      rw [List.nil_append, findSub_cons_of_not _ _ _ hfp]
      cases hft : findSub (q :: qs) t with
      | none => rfl
      | some m =>
        simp only [Option.map_some', Option.some.injEq, List.length_nil]
        omega
  | cons a x' ih =>
    obtain ⟨hfa, hfx'⟩ := findSub_cons_none pat a x' hx
    have hfp : hasPre pat (a :: (x' ++ '\n' :: t)) = false := by
      cases hc : hasPre pat (a :: (x' ++ '\n' :: t)) with
      | false => rfl
      | true =>
        exfalso
        rw [show a :: (x' ++ '\n' :: t) = (a :: x') ++ '\n' :: t from rfl] at hc
        by_cases hlen : pat.length ≤ (a :: x').length
        · exact absurd (hasPre_of_append_left pat (a :: x') _ hlen hc) (by rw [hfa]; simp)
        · exact hnl (mem_of_hasPre_over pat (a :: x') '\n' t (by omega) hc)
    rw [List.cons_append, findSub_cons_of_not _ _ _ hfp, ih hfx']
    cases hft : findSub pat t with
    | none => rfl
    | some m =>
      simp only [Option.map_some']
      congr 1
      simp only [List.length_cons]
      omega

lemma findSub_self_append (pat r : Str) (hpat : pat ≠ []) :
    findSub pat (pat ++ r) = some 0 := by
  cases pat with
  | nil => exact absurd rfl hpat
  | cons q qs =>
    rw [List.cons_append]
    unfold findSub
    rw [show hasPre (q :: qs) (q :: (qs ++ r)) = true from by
      have h := hasPre_self_append (q :: qs) r
      rwa [List.cons_append] at h]
    rfl

lemma take_append_cons (x : Str) (c : Char) (rest : Str) :
    (x ++ c :: rest).take (x.length + 1) = x ++ [c] := by
  rw [show x ++ c :: rest = (x ++ [c]) ++ rest by simp]
  have h := List.take_left (x ++ [c]) rest
  simpa using h

lemma drop_append_cons (x : Str) (c : Char) (rest : Str) :
    (x ++ c :: rest).drop (x.length + 1) = rest := by
  rw [show x ++ c :: rest = (x ++ [c]) ++ rest by simp]
  have h := List.drop_left (x ++ [c]) rest
  simp only [List.length_append, List.length_cons, List.length_nil] at h
  exact h

lemma displayText_marker_free (s : Str) (h : findSub voMarker s = none) :
    displayText s = jsTrim s := by
  unfold displayText
  rw [h]

lemma narration_marker_free (s : Str) (h : findSub voMarker s = none) :
    narration s = none := by
  unfold narration voCapture
  rw [h]

lemma findSub_jsTrim_none (t : Str) (h : findSub voMarker t = none) :
    findSub voMarker (jsTrim t) = none := by
  obtain ⟨a, b, hab⟩ := exists_jsTrim_infix t
  exact findSub_infix_none voMarker a (jsTrim t) b (by decide) (by rw [← hab]; exact h)

lemma displayText_idem (s : Str) : displayText (displayText s) = displayText s := by
  have key : ∀ t : Str, findSub voMarker t = none → displayText (jsTrim t) = jsTrim t := by
    intro t ht
    rw [displayText_marker_free _ (findSub_jsTrim_none t ht), jsTrim_idem]
  cases hf : findSub voMarker s with
  | none =>
    rw [displayText_marker_free s hf]
    exact key s hf
  | some i =>
    have hdisp : displayText s = jsTrim (s.take i) := by unfold displayText; rw [hf]
    rw [hdisp]
    exact key (s.take i) (findSub_take_none voMarker s i (by decide) hf)

lemma findSub_vo_form (x y : Str) (hx : findSub voMarker x = none) :
    findSub voMarker (x ++ '\n' :: (voMarker ++ ' ' :: y)) = some (x.length + 1) := by
  rw [findSub_append_newline voMarker x _ (by decide) hx,
      findSub_self_append voMarker _ (by decide)]
  rfl

lemma displayText_vo_form (x y : Str) (hx : findSub voMarker x = none) :
    displayText (x ++ '\n' :: (voMarker ++ ' ' :: y)) = jsTrim x := by
  have h1 : displayText (x ++ '\n' :: (voMarker ++ ' ' :: y))
      = jsTrim ((x ++ '\n' :: (voMarker ++ ' ' :: y)).take (x.length + 1)) := by
    unfold displayText
    rw [findSub_vo_form x y hx]
  rw [h1, take_append_cons x '\n' (voMarker ++ ' ' :: y)]
  exact jsTrim_append_ws x '\n' (by decide)

lemma voCapture_vo_form (x y : Str) (hx : findSub voMarker x = none) :
    voCapture (x ++ '\n' :: (voMarker ++ ' ' :: y))
      = some (y.dropWhile jsWhitespace) := by
  have h1 : voCapture (x ++ '\n' :: (voMarker ++ ' ' :: y))
      = some (((x ++ '\n' :: (voMarker ++ ' ' :: y)).drop
          (x.length + 1 + voMarker.length)).dropWhile jsWhitespace) := by
    unfold voCapture
    rw [findSub_vo_form x y hx]
  rw [h1]
  have hdrop : (x ++ '\n' :: (voMarker ++ ' ' :: y)).drop (x.length + 1 + voMarker.length)
      = ' ' :: y := by
    calc (x ++ '\n' :: (voMarker ++ ' ' :: y)).drop (x.length + 1 + voMarker.length)
        = ((x ++ '\n' :: (voMarker ++ ' ' :: y)).drop (x.length + 1)).drop voMarker.length := by
          rw [List.drop_drop]
      _ = (voMarker ++ ' ' :: y).drop voMarker.length := by rw [drop_append_cons]
      _ = ' ' :: y := List.drop_left _ _
  rw [hdrop]
  have hsp : jsWhitespace ' ' = true := by decide
  simp only [List.dropWhile, hsp]

lemma narration_vo_form (x y : Str) (hx : findSub voMarker x = none)
    (hy : y.dropWhile jsWhitespace ≠ []) :
    narration (x ++ '\n' :: (voMarker ++ ' ' :: y)) = some (jsTrim y) := by
  have h1 : narration (x ++ '\n' :: (voMarker ++ ' ' :: y))
      = if (y.dropWhile jsWhitespace).isEmpty then none
        else some (jsTrim (y.dropWhile jsWhitespace)) := by
    unfold narration
    rw [voCapture_vo_form x y hx]
  rw [h1, if_neg (by simpa [List.isEmpty_iff] using hy), jsTrim_dropWhile]

/-- C3 (amended): for input of the form `"X\nVOICE_OVER: Y"` where `X`
contains no `VOICE_OVER` marker and `Y` is not whitespace-only, extraction
yields narration = trim(`Y`) and display text = trim(`X`); for every input
containing no marker, narration is absent and the display text equals the
*trimmed* input (the original claim said "the input unchanged", which fails
because the display derivation always trims); applying display-text
derivation a second time is the identity. -/
theorem c3_narration_roundtrip :
    (∀ x y : Str, findSub voMarker x = none → y.dropWhile jsWhitespace ≠ [] →
        narration (x ++ '\n' :: (voMarker ++ ' ' :: y)) = some (jsTrim y) ∧
        displayText (x ++ '\n' :: (voMarker ++ ' ' :: y)) = jsTrim x) ∧
    (∀ s : Str, findSub voMarker s = none →
        narration s = none ∧ displayText s = jsTrim s) ∧
    (∀ s : Str, displayText (displayText s) = displayText s) := by
  refine ⟨?_, ?_, ?_⟩
  · intro x y hx hy
    exact ⟨narration_vo_form x y hx hy, displayText_vo_form x y hx⟩
  · intro s h
    exact ⟨narration_marker_free s h, displayText_marker_free s h⟩
  · exact displayText_idem

/-- C3 counterexample: an input with surrounding whitespace and no marker
whose display text is *not* the input unchanged — it is the trimmed input. -/
theorem c3_counterexample_untrimmed :
    findSub voMarker "  hi  ".data = none ∧
    displayText "  hi  ".data ≠ "  hi  ".data ∧
    displayText "  hi  ".data = "hi".data := by decide

theorem c3_narration_roundtrip_witness :
    narration "X\nVOICE_OVER: Y".data = some (jsTrim "Y".data) ∧
    displayText "X\nVOICE_OVER: Y".data = jsTrim "X".data := by
  have h := c3_narration_roundtrip.1 "X".data "Y".data (by decide) (by decide)
  have harg : "X".data ++ '\n' :: (voMarker ++ ' ' :: "Y".data)
      = "X\nVOICE_OVER: Y".data := by decide
  rw [harg] at h
  exact h

/-! ### Claim C10: the Narrator is never invoked with empty text -/

lemma narration_some_ne_nil (s u : Str) (h : narration s = some u) : u ≠ [] := by
  unfold narration at h
  cases hc : voCapture s with
  | none => rw [hc] at h; exact Option.noConfusion h
  | some cap =>
    rw [hc] at h
    have h2 : (if cap.isEmpty then none else some (jsTrim cap)) = some u := h
    by_cases he : cap.isEmpty
    · rw [if_pos he] at h2; exact Option.noConfusion h2
    · rw [if_neg he] at h2
      have hu : jsTrim cap = u := Option.some.inj h2
      unfold voCapture at hc
      cases hf : findSub voMarker s with
      | none => rw [hf] at hc; exact Option.noConfusion hc
      | some i =>
        rw [hf] at hc
        have hcap : (s.drop (i + voMarker.length)).dropWhile jsWhitespace = cap :=
          Option.some.inj hc
        cases hcc : cap with
        | nil => rw [hcc] at he; exact absurd rfl he
        | cons c cs =>
          have hwc : jsWhitespace c = false := by
            apply dropWhile_head_not jsWhitespace (s.drop (i + voMarker.length)) c cs
            rw [hcap, hcc]
          rw [← hu, hcc]
          exact jsTrim_ne_nil_of_head_not_ws c cs hwc

/-- C10: calling the Narrator (`speak`) with empty text is a complete no-op —
neither `cancel` nor `speak` is invoked; a reply whose `VOICE_OVER` marker is
followed by nothing (empty capture) triggers no Narrator call at all from the
`finally` block; and every `speak` the `finally` block does issue carries
non-empty text, so the empty-text branch of the Narrator is unreachable from
it. -/
theorem c10_narrator_empty_text_unreachable :
    (∀ b : Bool, speak b [] = []) ∧
    (∀ st : CoachState, voCapture st.acc = some [] → finallyActions st = []) ∧
    (∀ (st : CoachState) (t : Str),
        Action.speakText t ∈ finallyActions st → t ≠ []) := by
  refine ⟨?_, ?_, ?_⟩
  · intro b
    cases b <;> rfl
  · intro st h
    have hn : narration st.acc = none := by
      unfold narration
      rw [h]
      rfl
    unfold finallyActions
    rw [hn]
    cases st.voiceOn <;> rfl
  · intro st t hmem ht
    unfold finallyActions at hmem
    by_cases hv : st.voiceOn = true
    · rw [if_pos hv] at hmem
      cases hn : narration st.acc with
      | none =>
        rw [hn] at hmem
        exact List.not_mem_nil _ hmem
      | some u =>
        rw [hn] at hmem
        have hmem2 : Action.speakText t
            ∈ (if st.hasSpeech && !u.isEmpty then
                [Action.cancelSpeech, Action.speakText u] else []) := hmem
        by_cases hs : (st.hasSpeech && !u.isEmpty) = true
        · rw [if_pos hs] at hmem2
          have htu : t = u := by
            rcases List.mem_cons.mp hmem2 with h1 | h1
            · exact absurd h1 (by simp)
            · rcases List.mem_cons.mp h1 with h2 | h2
              · exact Action.speakText.inj h2
              · exact absurd h2 (List.not_mem_nil _)
          exact narration_some_ne_nil st.acc u hn (by rw [← htu]; exact ht)
        · rw [if_neg hs] at hmem2
          exact List.not_mem_nil _ hmem2
    · rw [if_neg hv] at hmem
      exact List.not_mem_nil _ hmem

theorem c10_narrator_empty_text_unreachable_witness :
    speak true [] = [] ∧
    finallyActions { sampleIdle with voiceOn := true, acc := "VOICE_OVER: ".data } = [] :=
  ⟨c10_narrator_empty_text_unreachable.1 true,
   c10_narrator_empty_text_unreachable.2.1
     { sampleIdle with voiceOn := true, acc := "VOICE_OVER: ".data } (by decide)⟩

/-! ### Claim C5: structured-section extraction -/

/-- `i` is the start position (the code's `indexOf(match[0])`) of one of the
three labelled sections present in the display text `d`. -/
def sectionStartsAt (d : Str) (i : Nat) : Prop :=
  sectionIdx d (matchLatex d) = some i ∨
  sectionIdx d (matchMathml d) = some i ∨
  sectionIdx d (matchDesc d) = some i

lemma minIdx3_spec (o1 o2 o3 : Option Nat) (i : Nat)
    (hstart : o1 = some i ∨ o2 = some i ∨ o3 = some i)
    (hmin : ∀ j, (o1 = some j ∨ o2 = some j ∨ o3 = some j) → i ≤ j) :
    minIdx [o1, o2, o3] = some i := by
  rcases o1 with _ | a <;> rcases o2 with _ | b <;> rcases o3 with _ | c
  · rcases hstart with h | h | h <;> exact Option.noConfusion h
  · have : c = i := by
      rcases hstart with h | h | h
      · exact Option.noConfusion h
      · exact Option.noConfusion h
      · exact Option.some.inj h
    simp only [minIdx]
    rw [this]
  · have : b = i := by
      rcases hstart with h | h | h
      · exact Option.noConfusion h
      · exact Option.some.inj h
      · exact Option.noConfusion h
    simp only [minIdx]
    rw [this]
  · have hb := hmin b (Or.inr (Or.inl rfl))
    have hc := hmin c (Or.inr (Or.inr rfl))
    have hor : b = i ∨ c = i := by
      rcases hstart with h | h | h
      · exact Option.noConfusion h
      · exact Or.inl (Option.some.inj h)
      · exact Or.inr (Option.some.inj h)
    simp only [minIdx, Option.some.injEq]
    omega
  · have : a = i := by
      rcases hstart with h | h | h
      · exact Option.some.inj h
      · exact Option.noConfusion h
      · exact Option.noConfusion h
    simp only [minIdx]
    rw [this]
  · have ha := hmin a (Or.inl rfl)
    have hc := hmin c (Or.inr (Or.inr rfl))
    have hor : a = i ∨ c = i := by
      rcases hstart with h | h | h
      · exact Or.inl (Option.some.inj h)
      · exact Option.noConfusion h
      · exact Or.inr (Option.some.inj h)
    simp only [minIdx, Option.some.injEq]
    omega
  · have ha := hmin a (Or.inl rfl)
    have hb := hmin b (Or.inr (Or.inl rfl))
    have hor : a = i ∨ b = i := by
      rcases hstart with h | h | h
      · exact Or.inl (Option.some.inj h)
      · exact Or.inr (Option.some.inj h)
      · exact Option.noConfusion h
    simp only [minIdx, Option.some.injEq]
    omega
  · have ha := hmin a (Or.inl rfl)
    have hb := hmin b (Or.inr (Or.inl rfl))
    have hc := hmin c (Or.inr (Or.inr rfl))
    have hor : a = i ∨ b = i ∨ c = i := by
      rcases hstart with h | h | h
      · exact Or.inl (Option.some.inj h)
      · exact Or.inr (Or.inl (Option.some.inj h))
      · exact Or.inr (Or.inr (Option.some.inj h))
    simp only [minIdx, Option.some.injEq]
    omega

lemma explanation_eq (content : Str) :
    (modelMessageContent content).explanation
      = match minIdx [sectionIdx (displayText content) (matchLatex (displayText content)),
                      sectionIdx (displayText content) (matchMathml (displayText content)),
                      sectionIdx (displayText content) (matchDesc (displayText content))] with
        | none => displayText content
        | some k => jsTrim ((displayText content).take k) := rfl

/-- C5 (amended): for every display text, the extracted explanation equals
everything before whichever of the three labelled sections starts earliest,
*trimmed of surrounding whitespace* (the original claim omitted the trim,
which the code applies), or the entire display text if none is present; text
containing only a LaTeX block yields explanation = trimmed text before the
block, latex = the block, and markup/description absent; missing sections
yield `none` rather than an error. -/
theorem c5_section_extraction :
    (∀ content : Str, (∀ i, ¬ sectionStartsAt (displayText content) i) →
        (modelMessageContent content).explanation = displayText content) ∧
    (∀ (content : Str) (i : Nat), sectionStartsAt (displayText content) i →
        (∀ j, sectionStartsAt (displayText content) j → i ≤ j) →
        (modelMessageContent content).explanation
          = jsTrim ((displayText content).take i)) ∧
    (∀ content : Str, matchLatex (displayText content) = none →
        (modelMessageContent content).latex = none) ∧
    (∀ content : Str, matchMathml (displayText content) = none →
        (modelMessageContent content).mathml = none) ∧
    (∀ content : Str, matchDesc (displayText content) = none →
        (modelMessageContent content).desc = none) ∧
    (∀ (content w cap : Str) (i : Nat),
        matchMathml (displayText content) = none →
        matchDesc (displayText content) = none →
        matchLatex (displayText content) = some (w, cap) →
        findSub w (displayText content) = some i →
        (modelMessageContent content).explanation
            = jsTrim ((displayText content).take i) ∧
        (modelMessageContent content).latex = some cap ∧
        (modelMessageContent content).mathml = none ∧
        (modelMessageContent content).desc = none) := by
  refine ⟨?_, ?_, ?_, ?_, ?_, ?_⟩
  · intro content hno
    have h1 : sectionIdx (displayText content) (matchLatex (displayText content)) = none := by
      cases h : sectionIdx (displayText content) (matchLatex (displayText content)) with
      | none => rfl
      | some a => exact absurd (Or.inl h) (hno a)
    have h2 : sectionIdx (displayText content) (matchMathml (displayText content)) = none := by
      cases h : sectionIdx (displayText content) (matchMathml (displayText content)) with
      | none => rfl
      | some a => exact absurd (Or.inr (Or.inl h)) (hno a)
    have h3 : sectionIdx (displayText content) (matchDesc (displayText content)) = none := by
      cases h : sectionIdx (displayText content) (matchDesc (displayText content)) with
      | none => rfl
      | some a => exact absurd (Or.inr (Or.inr h)) (hno a)
    rw [explanation_eq, h1, h2, h3]
    exact rfl
  · intro content i hstart hmin
    have hfI := minIdx3_spec _ _ _ i hstart hmin
    rw [explanation_eq, hfI]
  · intro content h
    show (matchLatex (displayText content)).map (fun p => p.2) = none
    rw [h]
    exact rfl
  · intro content h
    show (matchMathml (displayText content)).map (fun p => p.2) = none
    rw [h]
    exact rfl
  · intro content h
    show (matchDesc (displayText content)).map (fun p => p.2) = none
    rw [h]
    exact rfl
  · intro content w cap i hm hd hl hw
    have hil : sectionIdx (displayText content) (matchLatex (displayText content)) = some i := by
      unfold sectionIdx
      rw [hl]
      exact hw
    have him : sectionIdx (displayText content) (matchMathml (displayText content)) = none := by
      unfold sectionIdx
      rw [hm]
      rfl
    have hid : sectionIdx (displayText content) (matchDesc (displayText content)) = none := by
      unfold sectionIdx
      rw [hd]
      rfl
    refine ⟨?_, ?_, ?_, ?_⟩
    · rw [explanation_eq, hil, him, hid]
      exact rfl
    · show (matchLatex (displayText content)).map (fun p => p.2) = some cap
      rw [hl]
      exact rfl
    · show (matchMathml (displayText content)).map (fun p => p.2) = none
      rw [hm]
      exact rfl
    · show (matchDesc (displayText content)).map (fun p => p.2) = none
      rw [hd]
      exact rfl

/-- C5 counterexample: a text whose LaTeX section starts at position 3; the
text before the section is `"A \n"`, but the extracted explanation is the
*trimmed* `"A"`, so the explanation does not equal everything before the
earliest section verbatim. -/
theorem c5_counterexample_trimmed_explanation :
    sectionIdx (displayText "A \nLaTeX Formula: $$x$$".data)
        (matchLatex (displayText "A \nLaTeX Formula: $$x$$".data)) = some 3 ∧
    matchMathml (displayText "A \nLaTeX Formula: $$x$$".data) = none ∧
    matchDesc (displayText "A \nLaTeX Formula: $$x$$".data) = none ∧
    (modelMessageContent "A \nLaTeX Formula: $$x$$".data).explanation
      ≠ (displayText "A \nLaTeX Formula: $$x$$".data).take 3 ∧
    (modelMessageContent "A \nLaTeX Formula: $$x$$".data).explanation = "A".data := by
  decide

theorem c5_section_extraction_witness :
    (modelMessageContent "Hello\nLaTeX Formula: $$a+b$$".data).explanation = "Hello".data ∧
    (modelMessageContent "Hello\nLaTeX Formula: $$a+b$$".data).latex = some "$$a+b$$".data ∧
    (modelMessageContent "Hello\nLaTeX Formula: $$a+b$$".data).mathml = none ∧
    (modelMessageContent "Hello\nLaTeX Formula: $$a+b$$".data).desc = none := by
  have h := c5_section_extraction.2.2.2.2.2 "Hello\nLaTeX Formula: $$a+b$$".data
    "LaTeX Formula: $$a+b$$".data "$$a+b$$".data 6
    (by decide) (by decide) (by decide) (by decide)
  refine ⟨?_, h.2.1, h.2.2.1, h.2.2.2⟩
  rw [h.1]
  decide

end AiCoach
